import Mathlib

/-!
Shallow embedding of `pydantic_to_pyarrow/schema.py`: the recursive
type-resolution engine that converts a pydantic model class (an ordered list
of fields with type annotations and metadata) into a pyarrow schema (an
ordered list of named, typed, nullability-flagged columns).

Python type annotations become the inductive `PyType`; pyarrow data types
become `PAType`; a pydantic `FieldInfo` becomes `FieldInfo`; errors are the
message strings carried by `SchemaCreationError`.
-/

namespace PydanticToPyarrow

/-- A value carried by an enum variant or a `Literal[...]` argument,
classified the way `isinstance(v, str)` / `isinstance(v, int)` sees it. -/
inductive PyValue : Type where
  | vStr (s : String)
  | vInt (n : Int)
  | vOther (tag : String)
deriving DecidableEq

/-- The literal value found in a `Gt`/`Ge` constraint: either an `int`
(`isinstance(v, int)` true) or some other object. -/
inductive BoundVal : Type where
  | int (n : Int)
  | nonInt (tag : String)
deriving DecidableEq

/-- One element of a field's metadata list, as inspected by
`_get_int_type` (looking for `Gt`/`Ge`) and `_get_decimal_type` (looking for
an object with both `max_digits` and `decimal_places`).  `el.gt`/`el.ge`
may in principle be `None`, which the code lets through as a reset of
`min_value`, hence the `Option`. -/
inductive Metadata : Type where
  | gt (v : Option BoundVal)
  | ge (v : Option BoundVal)
  | decimalMeta (maxDigits decimalPlaces : Int)
  | other (tag : String)
deriving DecidableEq

/-- One positional argument of `Annotated[T, a1, a2, ...]` after the first:
either an object with a `.metadata` attribute (its metadata list is spliced
in) or a bare metadata object (wrapped in a singleton list). -/
inductive AnnotArg : Type where
  | withMeta (ms : List Metadata)
  | plain (m : Metadata)
deriving DecidableEq

mutual
/-- A Python type annotation as dispatched on by `_get_pyarrow_type`. -/
inductive PyType : Type where
  | pyStr
  | pyBytes
  | pyBool
  | pyFloat
  | pyDate
  | naiveDatetime
  | pyTime
  | pyDatetime
  | awareDatetime
  | pyInt
  | pyDecimal
  | pyNone
  | pyEnum (vals : List PyValue)
  | pyLiteral (vals : List PyValue)
  | pyList (elem : PyType)
  | pyDict (key val : PyType)
  | pyAnnotated (inner : PyType) (args : List AnnotArg)
  | pyUnion (args : List PyType)
  | pyModel (fields : List FieldInfo)
  | pyOther (tag : String)
/-- One entry of `model_fields`: plain field name, annotation, metadata
list, and the boolean value of `field_info.exclude and exclude_fields`'s
left operand. -/
inductive FieldInfo : Type where
  | mk (name : String) (ann : PyType) (metadata : List Metadata) (excluded : Bool)
end

/-- Plain name of the field (the `model_fields` key). -/
def FieldInfo.name : FieldInfo → String
  | .mk n _ _ _ => n

/-- The field's type annotation. -/
def FieldInfo.ann : FieldInfo → PyType
  | .mk _ a _ _ => a

/-- The field's metadata list. -/
def FieldInfo.metadata : FieldInfo → List Metadata
  | .mk _ _ m _ => m

/-- Whether the field carries `Field(exclude=True)`. -/
def FieldInfo.excluded : FieldInfo → Bool
  | .mk _ _ _ e => e

mutual
/-- A pyarrow data type, restricted to those the engine can emit. -/
inductive PAType : Type where
  | pa_string
  | pa_binary
  | pa_bool
  | pa_float64
  | pa_date32
  | pa_timestamp_ms_notz
  | pa_time64_us
  | pa_int32
  | pa_int64
  | pa_uint64
  | pa_decimal128 (precision scale : Int)
  | pa_dictionary (index value : PAType)
  | pa_list (inner : PAType)
  | pa_map (key value : PAType)
  | pa_struct (fields : List PAField)
  | pa_uuid
/-- A named pyarrow field: `pa.field(name, pa_field, nullable=nullable)`. -/
inductive PAField : Type where
  | mk (name : String) (ty : PAType) (nullable : Bool)
end

/-- The emitted column name. -/
def PAField.name : PAField → String
  | .mk n _ _ => n

/-- The emitted column data type. -/
def PAField.ty : PAField → PAType
  | .mk _ t _ => t

/-- The emitted nullability flag. -/
def PAField.nullable : PAField → Bool
  | .mk _ _ b => b

mutual
/-- Rendering of a type annotation into the text an f-string interpolation
of `field_type` produces (used in error messages). -/
def renderTy : PyType → String
  | .pyStr => "str"
  | .pyBytes => "bytes"
  | .pyBool => "bool"
  | .pyFloat => "float"
  | .pyDate => "datetime.date"
  | .naiveDatetime => "NaiveDatetime"
  | .pyTime => "datetime.time"
  | .pyDatetime => "datetime.datetime"
  | .awareDatetime => "AwareDatetime"
  | .pyInt => "int"
  | .pyDecimal => "Decimal"
  | .pyNone => "NoneType"
  | .pyEnum _ => "<enum>"
  | .pyLiteral _ => "Literal[...]"
  | .pyList e => "List[" ++ renderTy e ++ "]"
  | .pyDict k v => "Dict[" ++ renderTy k ++ ", " ++ renderTy v ++ "]"
  | .pyAnnotated inner _ => "Annotated[" ++ renderTy inner ++ ", ...]"
  | .pyUnion args => "Union[" ++ renderTyList args ++ "]"
  | .pyModel _ => "<class Model>"
  | .pyOther tag => tag
/-- Comma-separated rendering of a list of type annotations. -/
def renderTyList : List PyType → String
  | [] => ""
  | [t] => renderTy t
  | t :: ts => renderTy t ++ ", " ++ renderTyList ts
end

/-- `_get_int_type`'s scan: walks the metadata list keeping the latest
`Gt`/`Ge` bound in `min_value`, raising as soon as a bound's value is
neither `None` nor an `int`. -/
def intBoundScan : List Metadata → Option Int → Except String (Option Int)
  | [], acc => .ok acc
  | .gt none :: rest, _ => intBoundScan rest none
  | .gt (some (.int n)) :: rest, _ => intBoundScan rest (some n)
  | .gt (some (.nonInt _)) :: _, _ => .error "Gt metadata must be int"
  | .ge none :: rest, _ => intBoundScan rest none
  | .ge (some (.int n)) :: rest, _ => intBoundScan rest (some n)
  | .ge (some (.nonInt _)) :: _, _ => .error "Ge metadata must be int"
  | .decimalMeta _ _ :: rest, acc => intBoundScan rest acc
  | .other _ :: rest, acc => intBoundScan rest acc

/-- `_get_int_type`: unsigned 64-bit when the surviving lower bound is
present and at least zero, signed 64-bit otherwise. -/
def getIntType (metadata : List Metadata) : Except String PAType :=
  match intBoundScan metadata none with
  | .error e => .error e
  | .ok (some n) => if 0 ≤ n then .ok .pa_uint64 else .ok .pa_int64
  | .ok none => .ok .pa_int64

/-- One step of `_get_decimal_type`'s loop: a metadata element exposing both
`max_digits` and `decimal_places` replaces the current candidate. -/
def decimalStep (acc : Option (Int × Int)) (m : Metadata) : Option (Int × Int) :=
  match m with
  | .decimalMeta p s => some (p, s)
  | _ => acc

/-- The loop of `_get_decimal_type`: the last metadata element exposing both
`max_digits` and `decimal_places` wins. -/
def lastDecimalMeta (metadata : List Metadata) : Option (Int × Int) :=
  metadata.foldl decimalStep none

/-- `_get_decimal_type`: `pa.decimal128(max_digits, decimal_places)` from
the metadata, or the missing-metadata error. -/
def getDecimalType (metadata : List Metadata) : Except String PAType :=
  match lastDecimalMeta metadata with
  | some (p, s) => .ok (.pa_decimal128 p s)
  | none => .error "Decimal type needs annotation setting max_digits and decimal_places"

/-- `isinstance(v, str)`. -/
def PyValue.isStr : PyValue → Bool
  | .vStr _ => true
  | _ => false

/-- `isinstance(v, int)`. -/
def PyValue.isInt : PyValue → Bool
  | .vInt _ => true
  | _ => false

/-- `_get_enum_type` applied to the list of the enum's variant values. -/
def getEnumType (vals : List PyValue) : Except String PAType :=
  if vals.all PyValue.isStr then
    .ok (.pa_dictionary .pa_int32 .pa_string)
  else if vals.all PyValue.isInt then
    .ok .pa_int64
  else
    .error "Enums only allowed if all str or all int"

/-- `_get_literal_type` applied to `get_args(field_type)`. -/
def getLiteralType (vals : List PyValue) : Except String PAType :=
  if vals.all PyValue.isStr then
    .ok (.pa_dictionary .pa_int32 .pa_string)
  else if vals.all PyValue.isInt then
    .ok .pa_int64
  else
    .error "Literal type is only supported with all int or string values. "

/-- Whether the annotation is `NoneType` itself. -/
def PyType.isNoneTy : PyType → Bool
  | .pyNone => true
  | _ => false

/-- `_is_optional`: a union whose arguments include `NoneType`. -/
def PyType.isOptional : PyType → Bool
  | .pyUnion args => args.any PyType.isNoneTy
  | _ => false

/-- The representative picked by `list(set(get_args(t)) - {type(None)})[0]`:
the first non-`NoneType` argument, `none` when all arguments are `NoneType`
(in which case the Python code raises an `IndexError`). -/
def firstNonNone : List PyType → Option PyType
  | [] => none
  | t :: ts => if t.isNoneTy then firstNonNone ts else some t

theorem firstNonNone_sizeOf {l : List PyType} {t : PyType}
    (h : firstNonNone l = some t) : sizeOf t < sizeOf l := by
  induction l with
  | nil => simp [firstNonNone] at h
  | cons x xs ih =>
    simp only [firstNonNone] at h
    by_cases hx : x.isNoneTy
    · simp only [hx, if_true] at h
      have := ih h
      simp only [List.cons.sizeOf_spec]
      omega
    · simp only [hx, if_false] at h
      cases h
      simp only [List.cons.sizeOf_spec]
      omega

/-- The wrapping applied by `_get_pyarrow_schema`'s except-clause:
`f"Error processing field {name}: {field_type}, {err}"` where `field_type`
is the binding's value at the moment the error surfaced. -/
def wrapErr (name : String) (ft : PyType) (err : String) : String :=
  "Error processing field " ++ name ++ ": " ++ renderTy ft ++ ", " ++ err

mutual
/-- `_get_pyarrow_type`: dispatch over the annotation's shape, in the
source's order: `FIELD_MAP` → `LOSING_TZ_TYPES` (flag-gated) → enum →
`TYPES_WITH_METADATA` → `FIELD_TYPES` origins → nested `BaseModel` →
unknown-type error. -/
def getPyarrowType (ft : PyType) (metadata : List Metadata)
    (allowLosingTz excludeFields : Bool) : Except String PAType :=
  match ft with
  | .pyStr => .ok .pa_string
  | .pyBytes => .ok .pa_binary
  | .pyBool => .ok .pa_bool
  | .pyFloat => .ok .pa_float64
  | .pyDate => .ok .pa_date32
  | .naiveDatetime => .ok .pa_timestamp_ms_notz
  | .pyTime => .ok .pa_time64_us
  | .pyDatetime =>
      if allowLosingTz then .ok .pa_timestamp_ms_notz
      else .error (renderTy .pyDatetime ++ " only allowed if ok losing timezone information")
  | .awareDatetime =>
      if allowLosingTz then .ok .pa_timestamp_ms_notz
      else .error (renderTy .awareDatetime ++ " only allowed if ok losing timezone information")
  | .pyEnum vals => getEnumType vals
  | .pyDecimal => getDecimalType metadata
  | .pyInt => getIntType metadata
  | .pyLiteral vals => getLiteralType vals
  | .pyList e => getListType (.pyList e) metadata allowLosingTz excludeFields
  | .pyAnnotated inner args =>
      getAnnotatedType (.pyAnnotated inner args) metadata allowLosingTz excludeFields
  | .pyDict k v => getDictType (.pyDict k v) metadata allowLosingTz excludeFields
  | .pyModel fields =>
      match processFields allowLosingTz excludeFields fields with
      | .ok fs => .ok (.pa_struct fs)
      | .error e => .error e
  | .pyUnion args => .error ("Unknown type: " ++ renderTy (.pyUnion args))
  | .pyNone => .error ("Unknown type: " ++ renderTy .pyNone)
  | .pyOther tag => .error ("Unknown type: " ++ renderTy (.pyOther tag))
termination_by (sizeOf ft, 1)
decreasing_by
  all_goals simp_wf
  all_goals try (apply Prod.Lex.right; omega)
  all_goals apply Prod.Lex.left
  all_goals omega
/-- `_get_list_type`: recurse on the element type, stripping one
union-with-null level first (pyarrow lists natively allow null elements). -/
def getListType (ft : PyType) (metadata : List Metadata)
    (allowLosingTz excludeFields : Bool) : Except String PAType :=
  match ft with
  | .pyList (.pyUnion args) =>
      if (PyType.pyUnion args).isOptional then
        match h : firstNonNone args with
        | some t => (getPyarrowType t metadata allowLosingTz excludeFields).map .pa_list
        | none => .error "list index out of range"
      else
        (getPyarrowType (.pyUnion args) metadata allowLosingTz excludeFields).map .pa_list
  | .pyList elem => (getPyarrowType elem metadata allowLosingTz excludeFields).map .pa_list
  | other => .error ("Unknown type: " ++ renderTy other)
termination_by (sizeOf ft, 0)
decreasing_by
  all_goals simp_wf
  all_goals apply Prod.Lex.left
  all_goals try omega
  all_goals (have hb := firstNonNone_sizeOf h; omega)
/-- `_get_annotated_type`: replace the metadata with the flattened metadata
of `get_args(field_type)[1:]` and recurse on `get_args(field_type)[0]`. -/
def getAnnotatedType (ft : PyType) (_metadata : List Metadata)
    (allowLosingTz excludeFields : Bool) : Except String PAType :=
  match ft with
  | .pyAnnotated inner args =>
      getPyarrowType inner
        (args.flatMap (fun ar =>
          match ar with
          | .withMeta ms => ms
          | .plain m => [m]))
        allowLosingTz excludeFields
  | other => .error ("Unknown type: " ++ renderTy other)
termination_by (sizeOf ft, 0)
decreasing_by
  all_goals simp_wf
  all_goals apply Prod.Lex.left
  all_goals omega
/-- `_get_dict_type`: `pa.map_` of the key's and the value's resolutions,
the metadata passed unchanged to both. -/
def getDictType (ft : PyType) (metadata : List Metadata)
    (allowLosingTz excludeFields : Bool) : Except String PAType :=
  match ft with
  | .pyDict k v => do
      let kt ← getPyarrowType k metadata allowLosingTz excludeFields
      let vt ← getPyarrowType v metadata allowLosingTz excludeFields
      pure (.pa_map kt vt)
  | other => .error ("Unknown type: " ++ renderTy other)
termination_by (sizeOf ft, 0)
decreasing_by
  all_goals simp_wf
  all_goals apply Prod.Lex.left
  all_goals omega
/-- The body of `_get_pyarrow_schema`'s per-field loop: optional stripping,
type resolution, and the except-clause wrapping with the field's name and
the current value of the `field_type` binding. -/
def resolveField (allowLosingTz excludeFields : Bool) (f : FieldInfo) :
    Except String PAField :=
  match f with
  | .mk name ann metadata _ =>
    match ann with
    | .pyUnion args =>
        if (PyType.pyUnion args).isOptional then
          match h : firstNonNone args with
          | some t =>
            match getPyarrowType t metadata allowLosingTz excludeFields with
            | .ok pt => .ok (.mk name pt true)
            | .error e => .error (wrapErr name t e)
          | none => .error (wrapErr name (.pyUnion args) "list index out of range")
        else
          match getPyarrowType (.pyUnion args) metadata allowLosingTz excludeFields with
          | .ok pt => .ok (.mk name pt false)
          | .error e => .error (wrapErr name (.pyUnion args) e)
    | other =>
        match getPyarrowType other metadata allowLosingTz excludeFields with
        | .ok pt => .ok (.mk name pt false)
        | .error e => .error (wrapErr name other e)
termination_by (sizeOf f, 0)
decreasing_by
  all_goals simp_wf
  all_goals apply Prod.Lex.left
  all_goals try omega
  all_goals (have hb := firstNonNone_sizeOf h; omega)
/-- `_get_pyarrow_schema`'s loop over `model_fields`: skip excluded fields
when asked to, halt on the first wrapped error, collect the fields in
declaration order otherwise. -/
def processFields (allowLosingTz excludeFields : Bool) :
    List FieldInfo → Except String (List PAField)
  | [] => .ok []
  | f :: rest =>
    if f.excluded && excludeFields then
      processFields allowLosingTz excludeFields rest
    else
      match resolveField allowLosingTz excludeFields f with
      | .error e => .error e
      | .ok pf =>
        match processFields allowLosingTz excludeFields rest with
        | .error e => .error e
        | .ok pfs => .ok (pf :: pfs)
termination_by fs => (sizeOf fs, 0)
decreasing_by
  all_goals simp_wf
  all_goals apply Prod.Lex.left
  all_goals omega
end

/-- `get_pyarrow_schema` (with `_get_pyarrow_schema`, `as_schema=True`): the
public entry point, returning the ordered field list of the schema. -/
def get_pyarrow_schema (fields : List FieldInfo)
    (allow_losing_tz : Bool) (exclude_fields : Bool) :
    Except String (List PAField) :=
  processFields allow_losing_tz exclude_fields fields

end PydanticToPyarrow

namespace PydanticToPyarrow

/-- `s` contains `t` as a contiguous substring. -/
def strContains (s t : String) : Prop :=
  t.data <:+: s.data

instance (s t : String) : Decidable (strContains s t) :=
  List.decidableInfix t.data s.data

theorem strContains_of_eq_append {s t : String} (a b : String)
    (h : s = a ++ t ++ b) : strContains s t := by
  subst h
  exact ⟨a.data, b.data, by simp [String.data_append]⟩

/-- The wrapped message always contains the field's plain name. -/
theorem wrapErr_contains_name (name : String) (ft : PyType) (e : String) :
    strContains (wrapErr name ft e) name :=
  strContains_of_eq_append "Error processing field "
    (": " ++ renderTy ft ++ ", " ++ e)
    (by simp [wrapErr, String.ext_iff, String.data_append])

/-- The wrapped message always contains the rendering of the type the
`field_type` binding held when the error surfaced. -/
theorem wrapErr_contains_ty (name : String) (ft : PyType) (e : String) :
    strContains (wrapErr name ft e) (renderTy ft) :=
  strContains_of_eq_append ("Error processing field " ++ name ++ ": ")
    (", " ++ e)
    (by simp [wrapErr, String.ext_iff, String.data_append])

/-- Modelled from the spec: the version/strategy context collaborator and
the UUID arm of the Composite Resolvers, both absent from the source
snapshot (only the tests exercise them).  The input is the installed
pyarrow major version; UUID resolves to the fixed 16-byte UUID column only
from major version 18 on, and otherwise fails with the error the tests
check for, naming the minimum required version `18.0`. -/
def resolveUUIDType (pyarrowMajor : Nat) : Except String PAType :=
  if 18 ≤ pyarrowMajor then .ok .pa_uuid
  else .error "pyarrow.uuid needs version 18.0 or higher"

/-- Modelled from the spec: the explicit name candidates of a
FieldDescriptor beyond its plain name — bidirectional alias,
validation-only alias, serialization-only alias. -/
structure NameCandidates : Type where
  aliasName : Option String
  validationAlias : Option String
  serializationAlias : Option String
deriving DecidableEq

/-- Modelled from the spec: the Alias / Naming Resolver, absent from the
source snapshot.  With `byAlias` false the plain name is used; with it
true, an explicit serialization alias wins, else an explicit bidirectional
alias, else a record-level name generator applied to the plain name —
except that when a validation-only alias is set the generator is only used
under the newer alias-precedence strategy (`genWins` true), the older one
falling back to the plain name; with no generator the plain name is used. -/
def resolveFieldName (byAlias : Bool) (gen : Option (String → String))
    (genWins : Bool) (plain : String) (c : NameCandidates) : String :=
  if byAlias = false then plain
  else
    match c.serializationAlias with
    | some s => s
    | none =>
      match c.aliasName with
      | some a => a
      | none =>
        match gen with
        | none => plain
        | some g =>
          match c.validationAlias with
          | none => g plain
          | some _ => if genWins then g plain else plain

/-- Modelled from the spec: a FieldDescriptor carrying its name candidates
next to the introspected field data. -/
structure AliasedField : Type where
  info : FieldInfo
  cands : NameCandidates

/-- Modelled from the spec: the Schema Assembler with the Alias / Naming
Resolver attached — per-field resolution exactly as in the source snapshot,
with the emitted name chosen by `resolveFieldName` instead of always being
the plain name. -/
def processFieldsAliased (allowLosingTz excludeFields byAlias : Bool)
    (gen : Option (String → String)) (genWins : Bool) :
    List AliasedField → Except String (List PAField)
  | [] => .ok []
  | a :: rest =>
    if a.info.excluded && excludeFields then
      processFieldsAliased allowLosingTz excludeFields byAlias gen genWins rest
    else
      match resolveField allowLosingTz excludeFields a.info with
      | .error e => .error e
      | .ok (.mk _ pt nb) =>
        match processFieldsAliased allowLosingTz excludeFields byAlias gen genWins rest with
        | .error e => .error e
        | .ok pfs =>
          .ok (.mk (resolveFieldName byAlias gen genWins a.info.name a.cands) pt nb :: pfs)

/-- Modelled from the spec: the default value of the public entry point's
`byAlias` option. -/
def byAliasDefault : Bool := false


/-- The values of the `Gt`/`Ge` elements of a metadata list, in order
(statement helper for the constraint-extraction claims). -/
def lowerBounds : List Metadata → List (Option BoundVal)
  | [] => []
  | .gt v :: rest => v :: lowerBounds rest
  | .ge v :: rest => v :: lowerBounds rest
  | .decimalMeta _ _ :: rest => lowerBounds rest
  | .other _ :: rest => lowerBounds rest

/-- The `(max_digits, decimal_places)` pairs exposed by a metadata list, in
order (statement helper for the decimal claims). -/
def decimalMetas : List Metadata → List (Int × Int)
  | [] => []
  | .decimalMeta p s :: rest => (p, s) :: decimalMetas rest
  | .gt _ :: rest => decimalMetas rest
  | .ge _ :: rest => decimalMetas rest
  | .other _ :: rest => decimalMetas rest


theorem intBoundScan_nil_bounds {md : List Metadata} (h : lowerBounds md = [])
    (acc : Option Int) : intBoundScan md acc = .ok acc := by
  induction md generalizing acc with
  | nil => rfl
  | cons m rest ih =>
    cases m with
    | gt v => simp [lowerBounds] at h
    | ge v => simp [lowerBounds] at h
    | decimalMeta p s =>
      simp only [lowerBounds] at h
      simpa [intBoundScan] using ih h acc
    | other t =>
      simp only [lowerBounds] at h
      simpa [intBoundScan] using ih h acc

theorem intBoundScan_lastInt {md : List Metadata} {l : List Int} {n : Int}
    (h : lowerBounds md = l.map (fun k => some (.int k)) ++ [some (.int n)])
    (acc : Option Int) : intBoundScan md acc = .ok (some n) := by
  induction md generalizing l acc with
  | nil => cases l <;> simp [lowerBounds] at h
  | cons m rest ih =>
    cases m with
    | gt v =>
      cases l with
      | nil =>
        simp only [lowerBounds, List.map_nil, List.nil_append, List.cons.injEq] at h
        obtain ⟨hv, hrest⟩ := h
        subst hv
        simpa [intBoundScan] using intBoundScan_nil_bounds hrest _
      | cons k l' =>
        simp only [lowerBounds, List.map_cons, List.cons_append, List.cons.injEq] at h
        obtain ⟨hv, hrest⟩ := h
        subst hv
        simpa [intBoundScan] using ih hrest _
    | ge v =>
      cases l with
      | nil =>
        simp only [lowerBounds, List.map_nil, List.nil_append, List.cons.injEq] at h
        obtain ⟨hv, hrest⟩ := h
        subst hv
        simpa [intBoundScan] using intBoundScan_nil_bounds hrest _
      | cons k l' =>
        simp only [lowerBounds, List.map_cons, List.cons_append, List.cons.injEq] at h
        obtain ⟨hv, hrest⟩ := h
        subst hv
        simpa [intBoundScan] using ih hrest _
    | decimalMeta p s =>
      simp only [lowerBounds] at h
      simpa [intBoundScan] using ih h acc
    | other t =>
      simp only [lowerBounds] at h
      simpa [intBoundScan] using ih h acc

theorem intBoundScan_single_nonInt {md : List Metadata} {tag : String}
    (h : lowerBounds md = [some (.nonInt tag)]) (acc : Option Int) :
    intBoundScan md acc = .error "Gt metadata must be int"
    ∨ intBoundScan md acc = .error "Ge metadata must be int" := by
  induction md generalizing acc with
  | nil => simp [lowerBounds] at h
  | cons m rest ih =>
    cases m with
    | gt v =>
      simp only [lowerBounds, List.cons.injEq] at h
      obtain ⟨hv, -⟩ := h
      subst hv
      exact Or.inl (by simp [intBoundScan])
    | ge v =>
      simp only [lowerBounds, List.cons.injEq] at h
      obtain ⟨hv, -⟩ := h
      subst hv
      exact Or.inr (by simp [intBoundScan])
    | decimalMeta p s =>
      simp only [lowerBounds] at h
      simpa [intBoundScan] using ih h acc
    | other t =>
      simp only [lowerBounds] at h
      simpa [intBoundScan] using ih h acc

/-- C5: an integer field with a single `Ge`/`Gt` lower-bound constraint
resolves to `pa.uint64()` when the bound is at least zero and to
`pa.int64()` otherwise; with no lower-bound constraint it resolves to
`pa.int64()`; and a lower-bound constraint whose value is not an `int`
makes resolution fail with the invalid-constraint error. -/
theorem int_lower_bound_signedness (md : List Metadata) :
    (lowerBounds md = [] → getIntType md = .ok .pa_int64)
    ∧ (∀ n : Int, lowerBounds md = [some (.int n)] →
        getIntType md = .ok (if 0 ≤ n then .pa_uint64 else .pa_int64))
    ∧ (∀ tag : String, lowerBounds md = [some (.nonInt tag)] →
        getIntType md = .error "Gt metadata must be int"
        ∨ getIntType md = .error "Ge metadata must be int") := by
  refine ⟨?_, ?_, ?_⟩
  · intro h
    simp [getIntType, intBoundScan_nil_bounds h]
  · intro n h
    have hs := @intBoundScan_lastInt md [] n (by simpa using h) (none : Option Int)
    by_cases h0 : (0:Int) ≤ n <;> simp [getIntType, hs, h0]
  · intro tag h
    rcases intBoundScan_single_nonInt h (none : Option Int) with h' | h'
    · exact Or.inl (by simp [getIntType, h'])
    · exact Or.inr (by simp [getIntType, h'])

theorem int_lower_bound_signedness_witness :
    getIntType [] = .ok .pa_int64
    ∧ getIntType [.ge (some (.int 0))] = .ok .pa_uint64
    ∧ getIntType [.ge (some (.int (-1)))] = .ok .pa_int64
    ∧ (getIntType [.ge (some (.nonInt "0.5"))] = .error "Gt metadata must be int"
       ∨ getIntType [.ge (some (.nonInt "0.5"))] = .error "Ge metadata must be int") := by
  refine ⟨(int_lower_bound_signedness []).1 rfl, ?_, ?_,
    (int_lower_bound_signedness [.ge (some (.nonInt "0.5"))]).2.2 "0.5" rfl⟩
  · have h := (int_lower_bound_signedness [.ge (some (.int 0))]).2.1 0 rfl
    simpa using h
  · have h := (int_lower_bound_signedness [.ge (some (.int (-1)))]).2.1 (-1) rfl
    norm_num at h
    exact h

/-- C10: with several lower-bound constraints (all of them `int`-valued),
only the last one in metadata order determines the signedness of the
resolved integer column; in particular `[Ge(0), Ge(-1)]` yields `int64` and
`[Ge(-1), Ge(0)]` yields `uint64`. -/
theorem int_last_bound_wins (md : List Metadata) (l : List Int) (n : Int)
    (h : lowerBounds md = l.map (fun k => some (.int k)) ++ [some (.int n)]) :
    getIntType md = .ok (if 0 ≤ n then .pa_uint64 else .pa_int64) := by
  have hs := intBoundScan_lastInt h (none : Option Int)
  by_cases h0 : (0:Int) ≤ n <;> simp [getIntType, hs, h0]

theorem int_last_bound_wins_witness :
    getIntType [.ge (some (.int 0)), .ge (some (.int (-1)))] = .ok .pa_int64
    ∧ getIntType [.ge (some (.int (-1))), .ge (some (.int 0))] = .ok .pa_uint64 := by
  constructor
  · have h := int_last_bound_wins [.ge (some (.int 0)), .ge (some (.int (-1)))] [0] (-1) rfl
    norm_num at h
    exact h
  · have h := int_last_bound_wins [.ge (some (.int (-1))), .ge (some (.int 0))] [-1] 0 rfl
    simpa using h


theorem foldl_decimalStep_nil {md : List Metadata} (h : decimalMetas md = [])
    (acc : Option (Int × Int)) : md.foldl decimalStep acc = acc := by
  induction md generalizing acc with
  | nil => rfl
  | cons m rest ih =>
    cases m with
    | decimalMeta p s => simp [decimalMetas] at h
    | gt v =>
      simp only [decimalMetas] at h
      simpa [decimalStep] using ih h acc
    | ge v =>
      simp only [decimalMetas] at h
      simpa [decimalStep] using ih h acc
    | other t =>
      simp only [decimalMetas] at h
      simpa [decimalStep] using ih h acc

theorem foldl_decimalStep_single {md : List Metadata} {p s : Int}
    (h : decimalMetas md = [(p, s)]) (acc : Option (Int × Int)) :
    md.foldl decimalStep acc = some (p, s) := by
  induction md generalizing acc with
  | nil => simp [decimalMetas] at h
  | cons m rest ih =>
    cases m with
    | decimalMeta p' s' =>
      simp only [decimalMetas, List.cons.injEq, Prod.mk.injEq] at h
      obtain ⟨⟨hp, hs⟩, hrest⟩ := h
      subst hp; subst hs
      simpa [decimalStep] using foldl_decimalStep_nil hrest _
    | gt v =>
      simp only [decimalMetas] at h
      simpa [decimalStep] using ih h acc
    | ge v =>
      simp only [decimalMetas] at h
      simpa [decimalStep] using ih h acc
    | other t =>
      simp only [decimalMetas] at h
      simpa [decimalStep] using ih h acc

/-- C6: a decimal field whose metadata exposes a (single) object with both
`max_digits` and `decimal_places` resolves to
`pa.decimal128(max_digits, decimal_places)`; with no such object resolution
fails with the missing-decimal-metadata error. -/
theorem decimal_metadata_resolution (md : List Metadata) :
    (∀ p s : Int, decimalMetas md = [(p, s)] →
      getDecimalType md = .ok (.pa_decimal128 p s))
    ∧ (decimalMetas md = [] →
      getDecimalType md
        = .error "Decimal type needs annotation setting max_digits and decimal_places") := by
  constructor
  · intro p s h
    simp [getDecimalType, lastDecimalMeta, foldl_decimalStep_single h]
  · intro h
    simp [getDecimalType, lastDecimalMeta, foldl_decimalStep_nil h]

theorem decimal_metadata_resolution_witness :
    getDecimalType [.decimalMeta 5 2] = .ok (.pa_decimal128 5 2)
    ∧ getDecimalType []
      = .error "Decimal type needs annotation setting max_digits and decimal_places" :=
  ⟨(decimal_metadata_resolution [.decimalMeta 5 2]).1 5 2 rfl,
   (decimal_metadata_resolution []).2 rfl⟩

theorem enum_literal_homogeneity_counterexample :
    (∀ v ∈ ([] : List PyValue), v.isInt = true)
    ∧ getEnumType [] ≠ .ok .pa_int64
    ∧ getLiteralType [] ≠ .ok .pa_int64
    ∧ getEnumType [] = .ok (.pa_dictionary .pa_int32 .pa_string)
    ∧ getLiteralType [] = .ok (.pa_dictionary .pa_int32 .pa_string) := by
  refine ⟨by simp, ?_, ?_, rfl, rfl⟩
  · intro h
    simp [getEnumType] at h
  · intro h
    simp [getLiteralType] at h

/-- C7 (amended): for an enum or literal field, all-string variant values
give the dictionary-encoded string column; at least one variant with
all-integer values gives the signed 64-bit column (an empty variant list
falls into the all-string branch and gives the dictionary column); values
neither all-string nor all-integer give the mixed-types error. -/
theorem enum_literal_homogeneity (vals : List PyValue) :
    ((∀ v ∈ vals, v.isStr = true) →
      getEnumType vals = .ok (.pa_dictionary .pa_int32 .pa_string)
      ∧ getLiteralType vals = .ok (.pa_dictionary .pa_int32 .pa_string))
    ∧ (vals ≠ [] → (∀ v ∈ vals, v.isInt = true) →
      getEnumType vals = .ok .pa_int64 ∧ getLiteralType vals = .ok .pa_int64)
    ∧ (¬ (∀ v ∈ vals, v.isStr = true) → ¬ (∀ v ∈ vals, v.isInt = true) →
      getEnumType vals = .error "Enums only allowed if all str or all int"
      ∧ getLiteralType vals
        = .error "Literal type is only supported with all int or string values. ") := by
  refine ⟨?_, ?_, ?_⟩
  · intro h
    have hs : vals.all PyValue.isStr = true := List.all_eq_true.2 h
    exact ⟨by simp [getEnumType, hs], by simp [getLiteralType, hs]⟩
  · intro hne h
    have hi : vals.all PyValue.isInt = true := List.all_eq_true.2 h
    have hs : vals.all PyValue.isStr = false := by
      cases vals with
      | nil => exact absurd rfl hne
      | cons v rest =>
        have hv : v.isInt = true := h v (by simp)
        cases v with
        | vInt n => simp [List.all_cons, PyValue.isStr]
        | vStr t => simp [PyValue.isInt] at hv
        | vOther t => simp [PyValue.isInt] at hv
    exact ⟨by simp [getEnumType, hs, hi], by simp [getLiteralType, hs, hi]⟩
  · intro hnstr hnint
    have hs : vals.all PyValue.isStr = false := by
      rcases Bool.eq_false_or_eq_true (vals.all PyValue.isStr) with h | h
      · exact absurd (List.all_eq_true.1 h) hnstr
      · exact h
    have hi : vals.all PyValue.isInt = false := by
      rcases Bool.eq_false_or_eq_true (vals.all PyValue.isInt) with h | h
      · exact absurd (List.all_eq_true.1 h) hnint
      · exact h
    exact ⟨by simp [getEnumType, hs, hi], by simp [getLiteralType, hs, hi]⟩

theorem enum_literal_homogeneity_witness :
    (getEnumType [.vStr "a", .vStr "b"] = .ok (.pa_dictionary .pa_int32 .pa_string)
      ∧ getLiteralType [.vStr "a", .vStr "b"] = .ok (.pa_dictionary .pa_int32 .pa_string))
    ∧ (getEnumType [.vInt 1, .vInt 2] = .ok .pa_int64
      ∧ getLiteralType [.vInt 1, .vInt 2] = .ok .pa_int64)
    ∧ (getEnumType [.vStr "a", .vInt 2] = .error "Enums only allowed if all str or all int"
      ∧ getLiteralType [.vStr "a", .vInt 2]
        = .error "Literal type is only supported with all int or string values. ") :=
  ⟨(enum_literal_homogeneity [.vStr "a", .vStr "b"]).1 (by decide),
   (enum_literal_homogeneity [.vInt 1, .vInt 2]).2.1 (by decide) (by decide),
   (enum_literal_homogeneity [.vStr "a", .vInt 2]).2.2 (by decide) (by decide)⟩

/-- C8: a bare `datetime.datetime` or pydantic `AwareDatetime` annotation
fails with the timezone-not-allowed error when `allow_losing_tz` is false
and resolves to `pa.timestamp("ms", tz=None)` when it is true, while a
`NaiveDatetime` annotation resolves to the same millisecond no-zone
timestamp under either flag value. -/
theorem timestamp_timezone_gate (md : List Metadata) (ex : Bool) :
    (getPyarrowType .pyDatetime md false ex
        = .error (renderTy .pyDatetime ++ " only allowed if ok losing timezone information")
      ∧ getPyarrowType .awareDatetime md false ex
        = .error (renderTy .awareDatetime ++ " only allowed if ok losing timezone information"))
    ∧ (getPyarrowType .pyDatetime md true ex = .ok .pa_timestamp_ms_notz
      ∧ getPyarrowType .awareDatetime md true ex = .ok .pa_timestamp_ms_notz)
    ∧ (∀ allowLosingTz : Bool,
      getPyarrowType .naiveDatetime md allowLosingTz ex = .ok .pa_timestamp_ms_notz) := by
  refine ⟨⟨?_, ?_⟩, ⟨?_, ?_⟩, fun allowLosingTz => ?_⟩ <;> simp [getPyarrowType]

/-- C3: (spec-modelled) a UUID field resolves to the fixed 16-byte UUID
column exactly when the installed pyarrow major version is at least 18, and
otherwise fails with an error naming the minimum required version 18.0. -/
theorem uuid_version_gate (pyarrowMajor : Nat) :
    (18 ≤ pyarrowMajor → resolveUUIDType pyarrowMajor = .ok .pa_uuid)
    ∧ (pyarrowMajor < 18 →
      resolveUUIDType pyarrowMajor = .error "pyarrow.uuid needs version 18.0 or higher"
      ∧ strContains "pyarrow.uuid needs version 18.0 or higher" "18.0") := by
  constructor
  · intro h
    simp [resolveUUIDType, h]
  · intro h
    refine ⟨?_, by decide⟩
    simp [resolveUUIDType, Nat.not_le_of_lt h]

theorem uuid_version_gate_witness :
    resolveUUIDType 18 = .ok .pa_uuid
    ∧ (resolveUUIDType 17 = .error "pyarrow.uuid needs version 18.0 or higher"
      ∧ strContains "pyarrow.uuid needs version 18.0 or higher" "18.0") :=
  ⟨(uuid_version_gate 18).1 (by decide), (uuid_version_gate 17).2 (by decide)⟩


theorem firstNonNone_eq_of_filter {args : List PyType} {t : PyType}
    (h : args.filter (fun u => !u.isNoneTy) = [t]) : firstNonNone args = some t := by
  induction args with
  | nil => simp at h
  | cons x xs ih =>
    by_cases hx : x.isNoneTy = true
    · rw [List.filter_cons_of_neg (by simp [hx])] at h
      simp only [firstNonNone, hx, if_true]
      exact ih h
    · rw [List.filter_cons_of_pos (by simp [hx])] at h
      simp only [List.cons.injEq] at h
      obtain ⟨rfl, -⟩ := h
      simp [firstNonNone, hx]

/-- C4: a field annotated with a union containing the null type and exactly
one non-null arm `T` resolves (when it resolves) to a schema field with
`nullable=true` whose column type is the resolution of `T`; a field whose
annotation is not such a union resolves (when it resolves) to a schema
field with `nullable=false`. -/
theorem optional_nullability (allowLosingTz excludeFields : Bool) :
    (∀ (nm : String) (md : List Metadata) (exc : Bool) (args : List PyType)
      (t : PyType) (fld : PAField),
      PyType.pyNone ∈ args →
      args.filter (fun u => !u.isNoneTy) = [t] →
      resolveField allowLosingTz excludeFields (.mk nm (.pyUnion args) md exc) = .ok fld →
      fld.nullable = true ∧ getPyarrowType t md allowLosingTz excludeFields = .ok fld.ty)
    ∧ (∀ (f : FieldInfo) (fld : PAField),
      f.ann.isOptional = false →
      resolveField allowLosingTz excludeFields f = .ok fld →
      fld.nullable = false) := by
  constructor
  · intro nm md exc args t fld hmem hfilter hok
    have hopt : (PyType.pyUnion args).isOptional = true := by
      simp only [PyType.isOptional, List.any_eq_true]
      exact ⟨.pyNone, hmem, rfl⟩
    have hf : firstNonNone args = some t := firstNonNone_eq_of_filter hfilter
    simp only [resolveField, hopt, if_true] at hok
    split at hok
    · rename_i t' ht'
      rw [hf] at ht'
      injection ht' with ht'
      subst ht'
      split at hok
      · rename_i pt hpt
        injection hok with hok
        subst hok
        exact ⟨rfl, hpt⟩
      · exact Except.noConfusion hok
    · rename_i ht'
      rw [hf] at ht'
      exact Option.noConfusion ht'
  · intro f fld hnopt hok
    cases f with
    | mk nm ann md exc =>
      simp only [FieldInfo.ann] at hnopt
      cases ann
      case pyUnion args =>
        simp only [resolveField, hnopt, Bool.false_eq_true, if_false] at hok
        split at hok
        · rename_i pt hpt
          injection hok with hok
          subst hok
          rfl
        · exact Except.noConfusion hok
      all_goals
        simp only [resolveField] at hok
        split at hok
        · rename_i pt hpt
          injection hok with hok
          subst hok
          rfl
        · exact Except.noConfusion hok

theorem optional_nullability_witness :
    resolveField false false (.mk "x" (.pyUnion [.pyStr, .pyNone]) [] false)
      = .ok (.mk "x" .pa_string true)
    ∧ PAField.nullable (.mk "x" .pa_string true) = true
    ∧ getPyarrowType .pyStr [] false false = .ok (PAField.ty (.mk "x" .pa_string true))
    ∧ resolveField false false (.mk "y" .pyStr [] false) = .ok (.mk "y" .pa_string false)
    ∧ PAField.nullable (.mk "y" .pa_string false) = false := by
  have h1 : resolveField false false (.mk "x" (.pyUnion [.pyStr, .pyNone]) [] false)
      = .ok (.mk "x" .pa_string true) := by
    simp [resolveField, getPyarrowType, PyType.isOptional, firstNonNone, PyType.isNoneTy]
  have h2 : resolveField false false (.mk "y" .pyStr [] false)
      = .ok (.mk "y" .pa_string false) := by
    simp [resolveField, getPyarrowType]
  have hmain := (optional_nullability false false).1 "x" [] false [.pyStr, .pyNone]
    .pyStr (.mk "x" .pa_string true) (by simp) (by rfl) h1
  have hside := (optional_nullability false false).2 (.mk "y" .pyStr [] false)
    (.mk "y" .pa_string false) (by rfl) h2
  exact ⟨h1, hmain.1, hmain.2, h2, hside⟩

/-- C9: a nested record field resolves to a struct column whose inner field
list is exactly what the public entry point returns for the nested record
standalone, under the same flags. -/
theorem nested_struct_matches_standalone (allowLosingTz excludeFields : Bool)
    (nm : String) (md : List Metadata) (exc : Bool) (mfs : List FieldInfo)
    (fld : PAField)
    (hok : resolveField allowLosingTz excludeFields (.mk nm (.pyModel mfs) md exc)
      = .ok fld) :
    ∃ l, fld.ty = .pa_struct l
      ∧ get_pyarrow_schema mfs allowLosingTz excludeFields = .ok l := by
  simp only [resolveField, getPyarrowType] at hok
  rcases hp : processFields allowLosingTz excludeFields mfs with e | fs
  · rw [hp] at hok
    simp at hok
  · rw [hp] at hok
    simp only [] at hok
    injection hok with hok
    subst hok
    exact ⟨fs, rfl, by simpa [get_pyarrow_schema] using hp⟩

theorem nested_struct_matches_standalone_witness :
    resolveField false false (.mk "child" (.pyModel [.mk "a" .pyStr [] false]) [] false)
      = .ok (.mk "child" (.pa_struct [.mk "a" .pa_string false]) false)
    ∧ ∃ l, PAField.ty (.mk "child" (.pa_struct [.mk "a" .pa_string false]) false)
        = .pa_struct l
      ∧ get_pyarrow_schema [.mk "a" .pyStr [] false] false false = .ok l := by
  have h1 : resolveField false false
      (.mk "child" (.pyModel [.mk "a" .pyStr [] false]) [] false)
      = .ok (.mk "child" (.pa_struct [.mk "a" .pa_string false]) false) := by
    simp [resolveField, getPyarrowType, processFields, FieldInfo.excluded]
  exact ⟨h1, nested_struct_matches_standalone false false "child" [] false
    [.mk "a" .pyStr [] false] _ h1⟩


theorem processFieldsAliased_names_plain (allowLosingTz excludeFields genWins : Bool)
    (gen : Option (String → String)) (fs : List AliasedField) :
    ∀ l, processFieldsAliased allowLosingTz excludeFields false gen genWins fs = .ok l →
      l.map PAField.name
        = (fs.filter (fun a => !(a.info.excluded && excludeFields))).map
            (fun a => a.info.name) := by
  induction fs with
  | nil =>
    intro l h
    injection h with h
    subst h
    rfl
  | cons a rest ih =>
    intro l h
    by_cases hskip : (a.info.excluded && excludeFields) = true
    · simp only [processFieldsAliased, hskip, if_true] at h
      rw [List.filter_cons_of_neg (by simp [hskip])]
      exact ih l h
    · have hskip' : (a.info.excluded && excludeFields) = false := by simpa using hskip
      simp only [processFieldsAliased, hskip', Bool.false_eq_true, if_false] at h
      split at h
      · exact Except.noConfusion h
      · rename_i pt nb hr
        split at h
        · exact Except.noConfusion h
        · rename_i pfs hrest
          injection h with h
          subst h
          rw [List.filter_cons_of_pos (by simp [hskip'])]
          simp only [List.map_cons, PAField.name]
          rw [ih pfs hrest]
          simp [resolveFieldName]

theorem resolveFieldName_true_noGen (genWins : Bool) (plain : String)
    (c : NameCandidates) :
    resolveFieldName true none genWins plain c
      = c.serializationAlias.getD (c.aliasName.getD plain) := by
  cases hs : c.serializationAlias <;> cases ha : c.aliasName <;>
    simp [resolveFieldName, hs, ha]

theorem processFieldsAliased_names_byAlias (allowLosingTz excludeFields genWins : Bool)
    (fs : List AliasedField) :
    ∀ l, processFieldsAliased allowLosingTz excludeFields true none genWins fs = .ok l →
      l.map PAField.name
        = (fs.filter (fun a => !(a.info.excluded && excludeFields))).map
            (fun a => a.cands.serializationAlias.getD
              (a.cands.aliasName.getD a.info.name)) := by
  induction fs with
  | nil =>
    intro l h
    injection h with h
    subst h
    rfl
  | cons a rest ih =>
    intro l h
    by_cases hskip : (a.info.excluded && excludeFields) = true
    · simp only [processFieldsAliased, hskip, if_true] at h
      rw [List.filter_cons_of_neg (by simp [hskip])]
      exact ih l h
    · have hskip' : (a.info.excluded && excludeFields) = false := by simpa using hskip
      simp only [processFieldsAliased, hskip', Bool.false_eq_true, if_false] at h
      split at h
      · exact Except.noConfusion h
      · rename_i pt nb hr
        split at h
        · exact Except.noConfusion h
        · rename_i pfs hrest
          injection h with h
          subst h
          rw [List.filter_cons_of_pos (by simp [hskip'])]
          simp only [List.map_cons, PAField.name]
          rw [ih pfs hrest, resolveFieldName_true_noGen]

/-- C2: (spec-modelled) the public entry point's `byAlias` option defaults
to false; with `byAlias=false` every emitted column name is the field's
plain declared name whatever aliases are configured; with `byAlias=true`
and no name generator each field's emitted name is its serialization alias
if set, else its bidirectional alias if set, else its plain name. -/
theorem alias_resolution (allowLosingTz excludeFields genWins : Bool)
    (gen : Option (String → String)) (fs : List AliasedField) :
    byAliasDefault = false
    ∧ (∀ l, processFieldsAliased allowLosingTz excludeFields false gen genWins fs = .ok l →
      l.map PAField.name
        = (fs.filter (fun a => !(a.info.excluded && excludeFields))).map
            (fun a => a.info.name))
    ∧ (∀ l, processFieldsAliased allowLosingTz excludeFields true none genWins fs = .ok l →
      l.map PAField.name
        = (fs.filter (fun a => !(a.info.excluded && excludeFields))).map
            (fun a => a.cands.serializationAlias.getD
              (a.cands.aliasName.getD a.info.name))) :=
  ⟨rfl, processFieldsAliased_names_plain allowLosingTz excludeFields genWins gen fs,
   processFieldsAliased_names_byAlias allowLosingTz excludeFields genWins fs⟩

/-- The alias model of the repository's `test_alias` test: six string
fields, with a bidirectional alias on 2, a validation alias on 3, a
serialization alias on 4, both on 5, and a bidirectional alias on 6. -/
def aliasDemo : List AliasedField :=
  [⟨.mk "field1" .pyStr [] false, ⟨none, none, none⟩⟩,
   ⟨.mk "field2" .pyStr [] false, ⟨some "b2", none, none⟩⟩,
   ⟨.mk "field3" .pyStr [] false, ⟨none, some "b3", none⟩⟩,
   ⟨.mk "field4" .pyStr [] false, ⟨none, none, some "b4"⟩⟩,
   ⟨.mk "field5" .pyStr [] false, ⟨some "b5", none, some "c5"⟩⟩,
   ⟨.mk "field6" .pyStr [] false, ⟨some "b6", none, none⟩⟩]

theorem alias_resolution_witness :
    byAliasDefault = false
    ∧ (∃ l₁, processFieldsAliased false false false none false aliasDemo = .ok l₁
      ∧ l₁.map PAField.name
        = ["field1", "field2", "field3", "field4", "field5", "field6"])
    ∧ (∃ l₂, processFieldsAliased false false true none false aliasDemo = .ok l₂
      ∧ l₂.map PAField.name = ["field1", "b2", "field3", "b4", "c5", "b6"]) := by
  have h₁ : processFieldsAliased false false false none false aliasDemo
      = .ok [.mk "field1" .pa_string false, .mk "field2" .pa_string false,
             .mk "field3" .pa_string false, .mk "field4" .pa_string false,
             .mk "field5" .pa_string false, .mk "field6" .pa_string false] := by
    simp [processFieldsAliased, aliasDemo, resolveField, getPyarrowType,
      resolveFieldName, FieldInfo.excluded, FieldInfo.name]
  have h₂ : processFieldsAliased false false true none false aliasDemo
      = .ok [.mk "field1" .pa_string false, .mk "b2" .pa_string false,
             .mk "field3" .pa_string false, .mk "b4" .pa_string false,
             .mk "c5" .pa_string false, .mk "b6" .pa_string false] := by
    simp [processFieldsAliased, aliasDemo, resolveField, getPyarrowType,
      resolveFieldName, FieldInfo.excluded, FieldInfo.name]
  refine ⟨(alias_resolution false false false none aliasDemo).1, ⟨_, h₁, ?_⟩, ⟨_, h₂, ?_⟩⟩
  · rw [(alias_resolution false false false none aliasDemo).2.1 _ h₁]
    rfl
  · rw [(alias_resolution false false false none aliasDemo).2.2 _ h₂]
    rfl


theorem resolveField_error_shape (allowLosingTz excludeFields : Bool) (f : FieldInfo)
    (e : String) (h : resolveField allowLosingTz excludeFields f = .error e) :
    ∃ ft inner, e = wrapErr f.name ft inner
      ∧ (f.ann.isOptional = false → ft = f.ann) := by
  cases f with
  | mk nm ann md exc =>
    simp only [FieldInfo.name, FieldInfo.ann]
    cases ann
    case pyUnion args =>
      by_cases hopt : (PyType.pyUnion args).isOptional = true
      · simp only [resolveField, hopt, if_true] at h
        split at h
        · rename_i t ht
          split at h
          · exact Except.noConfusion h
          · rename_i e' he'
            injection h with h
            exact ⟨t, e', h.symm, fun hno => absurd hopt (by simp [hno])⟩
        · rename_i ht
          injection h with h
          exact ⟨.pyUnion args, "list index out of range", h.symm, fun _ => rfl⟩
      · have hopt' : (PyType.pyUnion args).isOptional = false := by simpa using hopt
        simp only [resolveField, hopt', Bool.false_eq_true, if_false] at h
        split at h
        · exact Except.noConfusion h
        · rename_i e' he'
          injection h with h
          exact ⟨.pyUnion args, e', h.symm, fun _ => rfl⟩
    all_goals
      simp only [resolveField] at h
      split at h
      · exact Except.noConfusion h
      · rename_i e' he'
        injection h with h
        exact ⟨_, e', h.symm, fun _ => rfl⟩

/-- C1 (amended): for every field list and flag setting the assembler
either returns a complete schema, with exactly one emitted field per
non-skipped input field, or halts at the first failing field with a single
`SchemaCreationError` whose message contains that field's plain name and
the rendering of the type the resolver was working on — the raw declared
type for non-optional fields, the unwrapped inner type once an optional
union has been stripped; no incomplete schema is ever returned. -/
theorem assembler_error_wrapping (allowLosingTz excludeFields : Bool)
    (fs : List FieldInfo) :
    (∃ l, processFields allowLosingTz excludeFields fs = .ok l
      ∧ l.length = (fs.filter (fun f => !(f.excluded && excludeFields))).length)
    ∨ (∃ pre f post ft inner,
      fs = pre ++ f :: post
      ∧ (∀ g ∈ pre, (g.excluded && excludeFields) = false →
          ∃ pf, resolveField allowLosingTz excludeFields g = .ok pf)
      ∧ (f.excluded && excludeFields) = false
      ∧ resolveField allowLosingTz excludeFields f = .error (wrapErr f.name ft inner)
      ∧ processFields allowLosingTz excludeFields fs = .error (wrapErr f.name ft inner)
      ∧ strContains (wrapErr f.name ft inner) f.name
      ∧ strContains (wrapErr f.name ft inner) (renderTy ft)
      ∧ (f.ann.isOptional = false → ft = f.ann)) := by
  induction fs with
  | nil => exact Or.inl ⟨[], by simp [processFields], rfl⟩
  | cons f rest ih =>
    by_cases hskip : (f.excluded && excludeFields) = true
    · rcases ih with ⟨l, hl, hlen⟩ |
        ⟨pre, g, post, ft, inner, hfs, hpre, hkeep, herr, hres, hc1, hc2, hshape⟩
      · refine Or.inl ⟨l, ?_, ?_⟩
        · simpa [processFields, hskip] using hl
        · rw [List.filter_cons_of_neg (by simp [hskip])]
          exact hlen
      · refine Or.inr ⟨f :: pre, g, post, ft, inner, by rw [hfs, List.cons_append], ?_,
          hkeep, herr, ?_, hc1, hc2, hshape⟩
        · intro g' hg' hkg'
          rcases List.mem_cons.1 hg' with rfl | hmem
          · exact absurd hskip (by simp [hkg'])
          · exact hpre g' hmem hkg'
        · simpa [processFields, hskip] using hres
    · have hskip' : (f.excluded && excludeFields) = false := by simpa using hskip
      rcases hr : resolveField allowLosingTz excludeFields f with e | pf
      · obtain ⟨ft, inner, rfl, hshape⟩ :=
          resolveField_error_shape allowLosingTz excludeFields f e hr
        refine Or.inr ⟨[], f, rest, ft, inner, rfl, by simp, hskip', hr, ?_,
          wrapErr_contains_name f.name ft inner, wrapErr_contains_ty f.name ft inner,
          hshape⟩
        simp [processFields, hskip', hr]
      · rcases ih with ⟨l, hl, hlen⟩ |
          ⟨pre, g, post, ft, inner, hfs, hpre, hkeep, herr, hres, hc1, hc2, hshape⟩
        · refine Or.inl ⟨pf :: l, ?_, ?_⟩
          · simp [processFields, hskip', hr, hl]
          · rw [List.filter_cons_of_pos (by simp [hskip'])]
            simpa using hlen
        · refine Or.inr ⟨f :: pre, g, post, ft, inner, by rw [hfs, List.cons_append], ?_,
            hkeep, herr, ?_, hc1, hc2, hshape⟩
          · intro g' hg' hkg'
            rcases List.mem_cons.1 hg' with rfl | hmem
            · exact ⟨pf, hr⟩
            · exact hpre g' hmem hkg'
          · simp [processFields, hskip', hr, hres]

theorem assembler_error_wrapping_witness :
    (∃ l, processFields false false [.mk "a" .pyStr [] false] = .ok l
      ∧ l.length
        = (([.mk "a" .pyStr [] false] : List FieldInfo).filter
            (fun f => !(f.excluded && false))).length)
    ∨ (∃ pre f post ft inner,
      ([.mk "a" .pyStr [] false] : List FieldInfo) = pre ++ f :: post
      ∧ (∀ g ∈ pre, (g.excluded && false) = false →
          ∃ pf, resolveField false false g = .ok pf)
      ∧ (f.excluded && false) = false
      ∧ resolveField false false f = .error (wrapErr f.name ft inner)
      ∧ processFields false false [.mk "a" .pyStr [] false]
          = .error (wrapErr f.name ft inner)
      ∧ strContains (wrapErr f.name ft inner) f.name
      ∧ strContains (wrapErr f.name ft inner) (renderTy ft)
      ∧ (f.ann.isOptional = false → ft = f.ann)) :=
  assembler_error_wrapping false false [.mk "a" .pyStr [] false]

set_option maxRecDepth 100000 in
/-- C1 fails as stated: for the single-field record `a : Optional[Decimal]`
with no metadata, resolution fails with a wrapped message that contains the
field's plain name and the stripped inner type `Decimal`, but not the raw
declared type, which renders as `Union[Decimal, NoneType]`. -/
theorem assembler_error_wrapping_counterexample :
    processFields false false [.mk "a" (.pyUnion [.pyDecimal, .pyNone]) [] false]
      = .error "Error processing field a: Decimal, Decimal type needs annotation setting max_digits and decimal_places"
    ∧ renderTy (.pyUnion [.pyDecimal, .pyNone]) = "Union[Decimal, NoneType]"
    ∧ strContains
        "Error processing field a: Decimal, Decimal type needs annotation setting max_digits and decimal_places"
        "a"
    ∧ ¬ strContains
        "Error processing field a: Decimal, Decimal type needs annotation setting max_digits and decimal_places"
        "Union[Decimal, NoneType]" := by
  refine ⟨?_, by simp [renderTy, renderTyList], by decide, by decide⟩
  have h : processFields false false
      [.mk "a" (.pyUnion [.pyDecimal, .pyNone]) [] false]
      = .error (wrapErr "a" .pyDecimal
          "Decimal type needs annotation setting max_digits and decimal_places") := by
    simp [processFields, resolveField, getPyarrowType, PyType.isOptional,
      firstNonNone, PyType.isNoneTy, getDecimalType, lastDecimalMeta,
      FieldInfo.excluded]
  rw [h]
  rfl

end PydanticToPyarrow
